import Mathlib

/-!
Shallow embedding of `src/FileModule.cc` (OpenSCAD's dependency-resolution and
recompilation-cache layer for `FileModule`), together with theorems settling the
frozen claims about it.

External collaborators (boost::filesystem path queries, `find_valid_path` from
parsersettings, `StatCache`, `ModuleCache`, `FontCache`, the parser, and the
evaluation engine) are modelled as an oracle structure `Env` of pure functions,
one field per collaborator operation that `FileModule.cc` invokes.  Compiled
modules are identified by opaque `Nat` handles (the code only compares module
pointers for identity).  Modification times (`time_t` values produced by
`ModuleCache::evaluate` and `StatCache::stat`) are modelled as `Nat`.

Diagnostics (`PRINTB` / `PRINTB_NOCACHE` / `PRINT` calls) are modelled as a
list of emitted `Diag` values, and calls into `FontCache::register_font_file`
and `ModuleCache::evaluate` are recorded as traces, so that claims about
"exactly one warning" or "no cache interaction" are statable.

`std::map<std::string, shared_ptr<ASTNode>>` (the field `externalDict`, the
spec's `resolvedIndex`) is modelled as an association list with
`std::map::insert` semantics: `mapInsert` inserts only when the key is absent,
`mapErase` removes a key, `mapLookup` finds the binding of a key.
-/

/-- Model of `boost::algorithm::to_lower_copy` on the default (C) locale:
ASCII lowercasing of every character. -/
def to_lower_copy (s : String) : String :=
  String.mk (s.data.map Char.toLower)

/-- `UseNode`: a `use<...>` reference; holds the as-written filename. -/
structure UseNode where
  filename : String
  deriving DecidableEq

/-- `IncludeNode`: an `include<...>` reference; holds the as-written filename. -/
structure IncludeNode where
  filename : String
  deriving DecidableEq

/-- An element of `externalList`: the C++ code stores `shared_ptr<ASTNode>`
and discriminates with `dynamic_pointer_cast` / `dynamic_cast` between the two
concrete reference kinds. -/
inductive ExternalNode where
  | useN (u : UseNode)
  | incN (i : IncludeNode)
  deriving DecidableEq

/-- Diagnostics emitted through `PRINTB` / `PRINTB_NOCACHE` / `PRINT`. -/
inductive Diag where
  /-- `WARNING: Failed to compile library '%s'.` (PRINTB_NOCACHE) -/
  | failedToCompile (filename : String)
  /-- `ERROR: Can't read font with path '%s'` -/
  | fontError (filename : String)
  /-- `WARNING: Can't open include file '%s'.` (unresolved include) -/
  | warnCantOpenInclude (filename : String)
  /-- `Can't open include file '%s'!` (resolved include, ifstream failed) -/
  | cantOpenIncludeHard (filename : String)
  /-- `Can't parse include file '%s'!` -/
  | cantParseInclude (filename : String)
  /-- An `EvaluationException` message reported by `PRINT(e.what())`. -/
  | evalError (msg : String)
  deriving DecidableEq

/-- The association-list model of `std::map<std::string, ...>` used for
`externalDict`. -/
abbrev ExtDict := List (String × ExternalNode)

/-- Key lookup in the map (first binding wins; a `std::map` has unique keys). -/
def mapLookup (d : ExtDict) (k : String) : Option ExternalNode :=
  match d with
  | [] => none
  | (k', v) :: rest => if k' = k then some v else mapLookup rest k

/-- `std::map::insert`: inserts `{k, v}` only when `k` is not already a key. -/
def mapInsert (d : ExtDict) (k : String) (v : ExternalNode) : ExtDict :=
  match mapLookup d k with
  | some _ => d
  | none => d ++ [(k, v)]

/-- `std::map::erase(key)`: removes the binding of `k`. -/
def mapErase (d : ExtDict) (k : String) : ExtDict :=
  d.filter (fun p => !(p.1 == k))

/-- The state of one `FileModule` object, as used by `FileModule.cc`:
the reentrancy flag, the resolution base directory `path`, the file's own
name, the ordered reference list `externalList`, and the key-to-reference map
`externalDict` (the spec's `resolvedIndex`). -/
structure FileModule where
  is_handling_dependencies : Bool
  path : String
  filename : String
  externalList : List ExternalNode
  externalDict : ExtDict
  deriving DecidableEq

/-- Oracle for every external collaborator invoked by `FileModule.cc`.
Each field models one operation for the duration of a single pass.

* `isAbsolute s`        — `fs::path(s).is_absolute()`
* `find_valid_path p s` — `find_valid_path(fs::path(p), fs::path(s))`,
  `none` for an empty (not-found) result
* `isCached`, `lookup`, `evaluate` — `ModuleCache::instance()`'s
  `isCached`, `lookup` and `evaluate(filename, newmodule)`; `evaluate`
  returns the produced module handle (or `none`) and the observed mtime
* `extension s`         — `fs::path(s).extension().generic_string()`
* `is_regular s`        — `fs::is_regular(s)`
* `canOpen s`           — whether `std::ifstream(s)` opens
* `parseOk s`           — whether `parse(inc_mod, text, s, false)` succeeds
* `statMtime s`         — `StatCache::stat(s, st)`: `some st.st_mtime` on
  success, `none` on failure
* `initModule`          — `ctx->initializeModule(*this)`, which may raise an
  `EvaluationException`
* `instantiateChildren` — `scope.instantiateChildren(ctx)`, producing child
  node handles or raising an `EvaluationException` -/
structure Env where
  isAbsolute : String → Bool
  find_valid_path : String → String → Option String
  isCached : String → Bool
  lookup : String → Option Nat
  evaluate : String → Option Nat × Nat
  extension : String → String
  is_regular : String → Bool
  canOpen : String → Bool
  parseOk : String → Bool
  statMtime : String → Option Nat
  initModule : Except String Unit
  instantiateChildren : Except String (List Nat)

/-- Loop-local state of `FileModule::handleDependencies`: the remembered
renames `updates`, the running maximum `latest`, plus the traces of emitted
diagnostics and of filenames passed to `ModuleCache::evaluate`. -/
structure StepAcc where
  updates : List (String × String)
  latest : Nat
  diags : List Diag
  evals : List String
  deriving DecidableEq

/-- The `if (found)` block of the `handleDependencies` loop body: query
`isCached` and `lookup`, call `evaluate`, update the running maximum, and
emit the failure warning iff `!newmodule && !wascached && !wasmissing`. -/
def depEval (env : Env) (filename : String) (wasmissing : Bool) (acc : StepAcc) : StepAcc :=
  let wascached := env.isCached filename
  let _oldmodule := env.lookup filename
  let r := env.evaluate filename
  { acc with
    latest := if r.2 > acc.latest then r.2 else acc.latest
    evals := acc.evals ++ [filename]
    diags :=
      if r.1.isNone && !wascached && !wasmissing then
        acc.diags ++ [Diag.failedToCompile filename]
      else acc.diags }

/-- One iteration of the `handleDependencies` loop over `externalDict`:
an absolute key is looked up directly (`wasmissing = false`); a relative key
is re-resolved, remembering the rename on success (`wasmissing = true`) and
skipping all cache interaction on failure (`found = false`). -/
def depStep (env : Env) (path : String) (acc : StepAcc) (entry : String × ExternalNode) :
    StepAcc :=
  if env.isAbsolute entry.1 then
    depEval env entry.1 false acc
  else
    match env.find_valid_path path entry.1 with
    | some fullpath =>
        depEval env fullpath true { acc with updates := acc.updates ++ [(entry.1, fullpath)] }
    | none => acc

/-- The rename-application loop at the end of `handleDependencies`:
`externalDict.insert({new, externalDict.at(old)}); externalDict.erase(old)`
for each remembered `(old, new)` pair. -/
def applyUpdates (d : ExtDict) (updates : List (String × String)) : ExtDict :=
  updates.foldl
    (fun d p =>
      match mapLookup d p.1 with
      | some node => mapErase (mapInsert d p.2 node) p.1
      | none => d)
    d

/-- Result of a `handleDependencies` call: the new `FileModule` state, the
returned maximum mtime, and the diagnostic and `evaluate`-call traces. -/
structure DepResult where
  fm : FileModule
  latest : Nat
  diags : List Diag
  evals : List String
  deriving DecidableEq

/-- `FileModule::handleDependencies()`: return 0 at once when the reentrancy
guard is set; otherwise set the guard, walk `externalDict` accumulating
renames, the maximum mtime, warnings and `evaluate` calls, re-key the located
relative entries, clear the guard and return the maximum. -/
def handleDependencies (env : Env) (fm : FileModule) : DepResult :=
  if fm.is_handling_dependencies then ⟨fm, 0, [], []⟩
  else
    let fm1 := { fm with is_handling_dependencies := true }
    let acc := fm1.externalDict.foldl (depStep env fm1.path) ⟨[], 0, [], []⟩
    ⟨{ fm1 with
        externalDict := applyUpdates fm1.externalDict acc.updates
        is_handling_dependencies := false },
      acc.latest, acc.diags, acc.evals⟩

/-- A concrete `FileModule` whose guard is set, for the C4 witness. -/
def fmC4 : FileModule :=
  { is_handling_dependencies := true
    path := "/proj"
    filename := "/proj/a.scad"
    externalList := [ExternalNode.useN ⟨"lib/b"⟩]
    externalDict := [("lib/b", ExternalNode.useN ⟨"lib/b"⟩)] }

/-- A concrete environment for witnesses. -/
def envC4 : Env :=
  { isAbsolute := fun s => s == "/proj/lib/c" || s == "/proj/lib/b" || s == "/lib"
    find_valid_path := fun _ s => if s == "lib/b" then some "/proj/lib/b" else none
    isCached := fun _ => false
    lookup := fun _ => none
    evaluate := fun _ => (some 1, 7)
    extension := fun _ => ""
    is_regular := fun _ => true
    canOpen := fun _ => true
    parseOk := fun _ => true
    statMtime := fun _ => none
    initModule := Except.ok ()
    instantiateChildren := Except.ok [] }

/-- The binary maximum as computed by the code's
`if (mtime > latest) latest = mtime;` pattern. -/
def natMax (a b : Nat) : Nat := if b > a then b else a

/-- The renames `handleDependencies` collects while walking `externalDict`:
one `(relativeKey, resolvedAbsolutePath)` pair per relative key whose
re-resolution succeeds this pass. -/
def updSpec (env : Env) (path : String) (l : ExtDict) : List (String × String) :=
  l.filterMap (fun e =>
    if env.isAbsolute e.1 = true then none
    else (env.find_valid_path path e.1).map (fun full => (e.1, full)))

/-- The modification times `ModuleCache::evaluate` reports during one pass:
one per entry that has, or obtains during the pass, an absolute-path key.
An entry whose relative key fails to resolve contributes nothing. -/
def useMtimes (env : Env) (path : String) (l : ExtDict) : List Nat :=
  l.filterMap (fun e =>
    if env.isAbsolute e.1 = true then some (env.evaluate e.1).2
    else (env.find_valid_path path e.1).map (fun full => (env.evaluate full).2))

/-- The `Failed to compile library` warnings of one pass: emitted exactly for
the entries whose key was already absolute (`wasmissing = false`), for which
`evaluate` produced no module and which were not cached before the call. -/
def warnSpec (env : Env) (l : ExtDict) : List Diag :=
  l.filterMap (fun e =>
    if env.isAbsolute e.1 = true ∧ (env.evaluate e.1).1 = none ∧ env.isCached e.1 = false then
      some (Diag.failedToCompile e.1)
    else none)

/-- The filenames handed to `ModuleCache::evaluate` during one pass. -/
def evalSpec (env : Env) (path : String) (l : ExtDict) : List String :=
  l.filterMap (fun e =>
    if env.isAbsolute e.1 = true then some e.1 else env.find_valid_path path e.1)

/-- Maximum of a list of naturals, `0` for the empty list. -/
def maxList (l : List Nat) : Nat := l.foldl natMax 0

/-- A `FileModule` with one absolute, one resolvable-relative and one
unresolvable key, for the C1 witness. -/
def fmC1 : FileModule :=
  { is_handling_dependencies := false
    path := "/proj"
    filename := "/proj/a.scad"
    externalList := []
    externalDict :=
      [("/proj/lib/c", ExternalNode.useN ⟨"/proj/lib/c"⟩),
       ("lib/b", ExternalNode.useN ⟨"lib/b"⟩),
       ("missing", ExternalNode.useN ⟨"missing"⟩)] }

/-- Pass-1 environment for the C2 witness: `/lib` is absolute, compiles to no
module, and is not cached yet. -/
def envC2a : Env :=
  { envC4 with
    isAbsolute := fun s => s == "/lib"
    evaluate := fun _ => (none, 0)
    isCached := fun _ => false }

/-- Pass-2 environment for the C2 witness: same, but the failed path is now
recorded in the ModuleCache (`isCached` is true). -/
def envC2b : Env :=
  { envC2a with isCached := fun _ => true }

/-- A module with a single absolute `use` key, for the C2 witness. -/
def fmC2 : FileModule :=
  { is_handling_dependencies := false
    path := "/proj"
    filename := "/proj/a.scad"
    externalList := []
    externalDict := [("/lib", ExternalNode.useN ⟨"/lib"⟩)] }

/-- One element of the rename loop, as a named function. -/
def applyUpdateOne (d : ExtDict) (p : String × String) : ExtDict :=
  match mapLookup d p.1 with
  | some node => mapErase (mapInsert d p.2 node) p.1
  | none => d

/-- Environment for the C3 counterexample: `/a` is the only absolute path and
`rel` resolves to `/a`, which is already a key of the index. -/
def envC3 : Env :=
  { envC4 with
    isAbsolute := fun s => s == "/a"
    find_valid_path := fun _ s => if s == "rel" then some "/a" else none }

/-- A module whose index has an absolute entry `/a` and a relative entry `rel`
that resolves to `/a`. -/
def fmC3 : FileModule :=
  { is_handling_dependencies := false
    path := "/p"
    filename := "/p/f.scad"
    externalList := []
    externalDict :=
      [("/a", ExternalNode.useN ⟨"/a"⟩), ("rel", ExternalNode.useN ⟨"rel"⟩)] }

/-- Environment for the C3 witness: `rel` resolves to the fresh absolute path
`/b`. -/
def envC3w : Env :=
  { envC4 with
    isAbsolute := fun s => s == "/b"
    find_valid_path := fun _ s => if s == "rel" then some "/b" else none }

/-- A module with the single relative entry `rel`, for the C3 witness. -/
def fmC3w : FileModule :=
  { is_handling_dependencies := false
    path := "/p"
    filename := "/p/f.scad"
    externalList := []
    externalDict := [("rel", ExternalNode.useN ⟨"rel"⟩)] }

/-- Accumulator of `resolveUseNodes`: the evolving `externalDict`, the emitted
diagnostics and the trace of `FontCache::register_font_file` calls. -/
structure UseAcc where
  dict : ExtDict
  diags : List Diag
  fonts : List String
  deriving DecidableEq

/-- The font-extension test of `resolveUseNodes`: lowercase the raw extension
(`boost::algorithm::to_lower_copy`) and compare with `.otf` / `.ttf`. -/
def isFontExt (extraw : String) : Bool :=
  let ext := to_lower_copy extraw
  ext == ".otf" || ext == ".ttf"

/-- One iteration of the `resolveUseNodes` loop over `externalList`: a
non-use node is skipped (`dynamic_pointer_cast` fails); for a use node the
code resolves the path (result unused), lowercases the extension of the
as-written filename (`isFontExt`), and either registers a font file (when the
file is regular), reports a font error, or inserts `{filename, node}` into
`externalDict`. -/
def useStep (env : Env) (path : String) (acc : UseAcc) (node : ExternalNode) : UseAcc :=
  match node with
  | ExternalNode.incN _ => acc
  | ExternalNode.useN u =>
    let filename := u.filename
    let _fullpath := env.find_valid_path path filename
    let extraw := env.extension filename
    if isFontExt extraw then
      if env.is_regular filename then
        { acc with fonts := acc.fonts ++ [filename] }
      else
        { acc with diags := acc.diags ++ [Diag.fontError filename] }
    else
      { acc with dict := mapInsert acc.dict filename (ExternalNode.useN u) }

/-- Result of `resolveUseNodes` / `resolveExternals`: the new module state,
the diagnostics and the font-registration trace. -/
structure UseResult where
  fm : FileModule
  diags : List Diag
  fonts : List String
  deriving DecidableEq

/-- `FileModule::resolveUseNodes()`. -/
def resolveUseNodes (env : Env) (fm : FileModule) : UseResult :=
  let acc := fm.externalList.foldl (useStep env fm.path) ⟨fm.externalDict, [], []⟩
  ⟨{ fm with externalDict := acc.dict }, acc.diags, acc.fonts⟩

/-- `FileModule::resolveIncludeNodes()`: walk `externalList`; a use node is
skipped; an include node that fails to resolve yields a warning and the loop
continues; one that resolves but cannot be opened, or cannot be parsed,
reports and returns immediately (aborting the rest of the loop). -/
def resolveIncludeNodes (env : Env) (path : String) : List ExternalNode → List Diag
  | [] => []
  | node :: rest =>
    match node with
    | ExternalNode.useN _ => resolveIncludeNodes env path rest
    | ExternalNode.incN i =>
      match env.find_valid_path path i.filename with
      | none => Diag.warnCantOpenInclude i.filename :: resolveIncludeNodes env path rest
      | some fullname =>
        if !env.canOpen fullname then [Diag.cantOpenIncludeHard fullname]
        else if !env.parseOk fullname then [Diag.cantParseInclude fullname]
        else resolveIncludeNodes env path rest

/-- `FileModule::resolveExternals()`: `resolveIncludeNodes()` then
`resolveUseNodes()`; a failure in the include pass does not prevent the use
pass from running in full. -/
def resolveExternals (env : Env) (fm : FileModule) : UseResult :=
  let incDiags := resolveIncludeNodes env fm.path fm.externalList
  let r := resolveUseNodes env fm
  ⟨r.fm, incDiags ++ r.diags, r.fonts⟩

/-- `FileModule::includeModified(node)`: `StatCache::stat` of the node's
filename; the stored mtime on success, 0 on failure. -/
def includeModified (env : Env) (node : IncludeNode) : Nat :=
  match env.statMtime node.filename with
  | some m => m
  | none => 0

/-- One iteration of the `includesChanged` loop: only include nodes
(`dynamic_cast<IncludeNode*>`) update the running maximum. -/
def incStep (env : Env) (latest : Nat) (item : ExternalNode) : Nat :=
  match item with
  | ExternalNode.incN i =>
    let mtime := includeModified env i
    if mtime > latest then mtime else latest
  | _ => latest

/-- `FileModule::includesChanged()`. -/
def includesChanged (env : Env) (fm : FileModule) : Nat :=
  fm.externalList.foldl (incStep env) 0

/-- A root node produced by instantiation; children are opaque handles of the
nodes produced by `scope.instantiateChildren`. -/
structure RootNode where
  children : List Nat
  deriving DecidableEq

/-- `FileModule::instantiateWithFileContext`: allocate a root node with no
children; inside the `try` block run `ctx->initializeModule(*this)`, then
`scope.instantiateChildren(ctx)`, then append the produced children to the
root node; an `EvaluationException` from either step is caught, reported via
`PRINT(e.what())`, and the root node (with whatever children were inserted
before the exception, which is none, since insertion happens after both
fallible steps) is returned. -/
def instantiateWithFileContext (env : Env) : RootNode × List Diag :=
  match env.initModule with
  | Except.error e => (⟨[]⟩, [Diag.evalError e])
  | Except.ok _ =>
    match env.instantiateChildren with
    | Except.error e => (⟨[]⟩, [Diag.evalError e])
    | Except.ok cs => (⟨cs⟩, [])

/-- `FileModule::instantiate`: builds a fresh `FileContext` over the caller's
context and delegates to `instantiateWithFileContext`. -/
def instantiate (env : Env) : RootNode × List Diag :=
  instantiateWithFileContext env

/-- Collaborator oracle for the exception-aware model of
`handleDependencies`: identical to the dependency-pass part of `Env`, except
that `ModuleCache::evaluate` may raise an exception (there is no try/catch in
`handleDependencies`, so such an exception propagates to the caller). -/
structure EnvE where
  isAbsolute : String → Bool
  find_valid_path : String → String → Option String
  isCached : String → Bool
  lookup : String → Option Nat
  evaluateE : String → Except String (Option Nat × Nat)

/-- The non-state outputs of one `handleDependencies` pass. -/
structure DepOut where
  latest : Nat
  diags : List Diag
  evals : List String
  deriving DecidableEq

/-- Exception-aware variant of `depEval`: an exception in
`ModuleCache::evaluate` aborts the loop body. -/
def depEvalE (env : EnvE) (filename : String) (wasmissing : Bool) (acc : StepAcc) :
    Except String StepAcc :=
  let wascached := env.isCached filename
  let _oldmodule := env.lookup filename
  match env.evaluateE filename with
  | Except.error e => Except.error e
  | Except.ok r =>
    Except.ok
      { acc with
        latest := if r.2 > acc.latest then r.2 else acc.latest
        evals := acc.evals ++ [filename]
        diags :=
          if r.1.isNone && !wascached && !wasmissing then
            acc.diags ++ [Diag.failedToCompile filename]
          else acc.diags }

/-- Exception-aware variant of `depStep`. -/
def depStepE (env : EnvE) (path : String) (acc : StepAcc) (entry : String × ExternalNode) :
    Except String StepAcc :=
  if env.isAbsolute entry.1 then
    depEvalE env entry.1 false acc
  else
    match env.find_valid_path path entry.1 with
    | some fullpath =>
        depEvalE env fullpath true { acc with updates := acc.updates ++ [(entry.1, fullpath)] }
    | none => Except.ok acc

/-- Exception-propagating fold over `externalDict`. -/
def foldDepE (env : EnvE) (path : String) : List (String × ExternalNode) → StepAcc →
    Except String StepAcc
  | [], acc => Except.ok acc
  | e :: rest, acc =>
    match depStepE env path acc e with
    | Except.error err => Except.error err
    | Except.ok acc2 => foldDepE env path rest acc2

/-- Exception-aware model of `FileModule::handleDependencies()`: the guard is
set before the loop and cleared only on the normal exit path; when
`ModuleCache::evaluate` raises, the exception escapes with the guard still
set and the rename loop never runs. -/
def handleDependenciesE (env : EnvE) (fm : FileModule) :
    FileModule × Except String DepOut :=
  if fm.is_handling_dependencies then (fm, Except.ok ⟨0, [], []⟩)
  else
    let fm1 := { fm with is_handling_dependencies := true }
    match foldDepE env fm1.path fm1.externalDict ⟨[], 0, [], []⟩ with
    | Except.error e => (fm1, Except.error e)
    | Except.ok acc =>
      ({ fm1 with
          externalDict := applyUpdates fm1.externalDict acc.updates
          is_handling_dependencies := false },
        Except.ok ⟨acc.latest, acc.diags, acc.evals⟩)

/-- The include-node modification times, in `externalList` order. -/
def includeMtimes (env : Env) (l : List ExternalNode) : List Nat :=
  l.filterMap (fun node =>
    match node with
    | ExternalNode.incN i => some (includeModified env i)
    | _ => none)

/-- Environment for the C6 witness: two include files with mtimes 3 and 9. -/
def envC6 : Env :=
  { envC4 with
    statMtime := fun s => if s == "i1" then some 3 else if s == "i2" then some 9 else none }

/-- A module with two include references, for the C6 witness. -/
def fmC6 : FileModule :=
  { is_handling_dependencies := false
    path := "/p"
    filename := "/p/f.scad"
    externalList := [ExternalNode.incN ⟨"i1"⟩, ExternalNode.incN ⟨"i2"⟩]
    externalDict := [] }

/-- Environment in which context initialization raises, for the C7 witness. -/
def envC7 : Env :=
  { envC4 with initModule := Except.error "ExperimentalFeatureException" }

/-- Environment for the C8 witness: `inc` resolves to `/inc`, which cannot be
opened. -/
def envC8 : Env :=
  { envC4 with
    find_valid_path := fun _ s => if s == "inc" then some "/inc" else none
    canOpen := fun _ => false }

/-- The `externalDict` effect of one `resolveUseNodes` iteration, in
isolation. -/
def useDictStep (env : Env) (d : ExtDict) (node : ExternalNode) : ExtDict :=
  match node with
  | ExternalNode.incN _ => d
  | ExternalNode.useN u =>
    if isFontExt (env.extension u.filename) then d
    else mapInsert d u.filename (ExternalNode.useN u)

/-- Environment for the C5 counterexample: `Foo.TTF` has raw extension `.TTF`
but is not a regular file on disk. -/
def envC5 : Env :=
  { envC4 with
    extension := fun s => if s == "Foo.TTF" then ".TTF" else ""
    is_regular := fun _ => false }

/-- A module with a single mixed-case font Use reference. -/
def fmC5 : FileModule :=
  { is_handling_dependencies := false
    path := "/p"
    filename := "/p/f.scad"
    externalList := [ExternalNode.useN ⟨"Foo.TTF"⟩]
    externalDict := [] }

/-- Like `envC5`, but the font file is a regular file. -/
def envC5reg : Env :=
  { envC5 with is_regular := fun _ => true }

/-- An environment whose `evaluate` always raises, for the C10 witness. -/
def envC10 : EnvE :=
  { isAbsolute := fun s => s == "/a"
    find_valid_path := fun _ _ => none
    isCached := fun _ => false
    lookup := fun _ => none
    evaluateE := fun _ => Except.error "boom" }

/-- A module with one absolute entry (so the pass calls `evaluate`), for the
C10 witness. -/
def fmC10 : FileModule :=
  { is_handling_dependencies := false
    path := "/p"
    filename := "/p/f.scad"
    externalList := []
    externalDict := [("/a", ExternalNode.useN ⟨"/a"⟩)] }

/-- Claim C4: when the reentrancy guard is already set, `handleDependencies()`
returns 0 immediately and leaves the `FileModule` (in particular
`resolvedIndex`) unchanged, emits no diagnostics and performs no
`ModuleCache::evaluate` calls (hence leaves the ModuleCache unchanged). -/
theorem handleDependencies_reentrant_noop (env : Env) (fm : FileModule)
    (hg : fm.is_handling_dependencies = true) :
    handleDependencies env fm = ⟨fm, 0, [], []⟩ := by
  simp [handleDependencies, hg]

/-- Witness for C4 at a concrete guarded module. -/
theorem handleDependencies_reentrant_noop_witness :
    fmC4.is_handling_dependencies = true ∧
      handleDependencies envC4 fmC4 = ⟨fmC4, 0, [], []⟩ :=
  ⟨rfl, handleDependencies_reentrant_noop envC4 fmC4 rfl⟩

theorem ite_gt_eq_natMax (l m : Nat) : (if m > l then m else l) = natMax l m := rfl

theorem natMax_zero_left (a : Nat) : natMax 0 a = a := by
  unfold natMax; split <;> omega

theorem natMax_assoc (a b c : Nat) : natMax (natMax a b) c = natMax a (natMax b c) := by
  unfold natMax
  repeat' split
  all_goals omega

theorem natMax_le_left (a b : Nat) : a ≤ natMax a b := by
  unfold natMax; split <;> omega

theorem natMax_le_right (a b : Nat) : b ≤ natMax a b := by
  unfold natMax; split <;> omega

theorem natMax_cases (a b : Nat) : natMax a b = a ∨ natMax a b = b := by
  unfold natMax; split <;> omega

theorem natMax_zero_right (a : Nat) : natMax a 0 = a := by
  unfold natMax; split <;> omega

theorem foldl_natMax_init (l : List Nat) (a : Nat) :
    l.foldl natMax a = natMax a (l.foldl natMax 0) := by
  induction l generalizing a with
  | nil => unfold natMax; simp
  | cons x t ih =>
    simp only [List.foldl_cons]
    rw [ih (natMax a x), ih (natMax 0 x), natMax_zero_left, natMax_assoc]

theorem maxList_cons (x : Nat) (l : List Nat) :
    maxList (x :: l) = natMax x (maxList l) := by
  rw [maxList, List.foldl_cons, foldl_natMax_init, natMax_zero_left]; rfl

theorem le_maxList {l : List Nat} {t : Nat} (h : t ∈ l) : t ≤ maxList l := by
  induction l with
  | nil => cases h
  | cons x r ih =>
    rw [maxList_cons]
    rcases List.mem_cons.mp h with rfl | hr
    · exact natMax_le_left _ _
    · exact Nat.le_trans (ih hr) (natMax_le_right _ _)

theorem maxList_mem {l : List Nat} (h : l ≠ []) : maxList l ∈ l := by
  induction l with
  | nil => exact absurd rfl h
  | cons x r ih =>
    rw [maxList_cons]
    cases r with
    | nil => simp [maxList, natMax_zero_right]
    | cons y s =>
      rcases natMax_cases x (maxList (y :: s)) with hx | hm
      · rw [hx]; exact List.mem_cons_self _ _
      · rw [hm]; exact List.mem_cons_of_mem _ (ih (by simp))

theorem foldDep_updates (env : Env) (path : String) (l : ExtDict) (acc : StepAcc) :
    (l.foldl (depStep env path) acc).updates = acc.updates ++ updSpec env path l := by
  induction l generalizing acc with
  | nil => simp [updSpec]
  | cons e t ih =>
    rw [List.foldl_cons]
    by_cases ha : env.isAbsolute e.1 = true
    · simp [depStep, ha, depEval, ih, updSpec]
    · cases hf : env.find_valid_path path e.1 with
      | none => simp [depStep, ha, hf, ih, updSpec]
      | some full => simp [depStep, ha, hf, depEval, ih, updSpec]

theorem foldDep_latest (env : Env) (path : String) (l : ExtDict) (acc : StepAcc) :
    (l.foldl (depStep env path) acc).latest
      = natMax acc.latest (maxList (useMtimes env path l)) := by
  induction l generalizing acc with
  | nil => simp [useMtimes, maxList, natMax_zero_right]
  | cons e t ih =>
    rw [List.foldl_cons]
    by_cases ha : env.isAbsolute e.1 = true
    · rw [show depStep env path acc e = depEval env e.1 false acc by simp [depStep, ha]]
      rw [ih]
      simp only [depEval, ite_gt_eq_natMax]
      simp only [useMtimes, List.filterMap_cons, ha, if_pos, maxList_cons]
      rw [natMax_assoc]
    · cases hf : env.find_valid_path path e.1 with
      | none =>
          rw [show depStep env path acc e = acc by simp [depStep, ha, hf]]
          rw [ih]
          simp [useMtimes, List.filterMap_cons, ha, hf]
      | some full =>
          rw [show depStep env path acc e
                = depEval env full true { acc with updates := acc.updates ++ [(e.1, full)] } by
              simp [depStep, ha, hf]]
          rw [ih]
          simp only [depEval, ite_gt_eq_natMax]
          have hm : useMtimes env path (e :: t)
              = (env.evaluate full).2 :: useMtimes env path t := by
            simp [useMtimes, List.filterMap_cons, ha, hf]
          rw [hm, maxList_cons, natMax_assoc]

theorem foldDep_diags (env : Env) (path : String) (l : ExtDict) (acc : StepAcc) :
    (l.foldl (depStep env path) acc).diags = acc.diags ++ warnSpec env l := by
  induction l generalizing acc with
  | nil => simp [warnSpec]
  | cons e t ih =>
    rw [List.foldl_cons]
    by_cases ha : env.isAbsolute e.1 = true
    · rw [show depStep env path acc e = depEval env e.1 false acc by simp [depStep, ha]]
      rw [ih]
      by_cases hn : (env.evaluate e.1).1 = none
      · by_cases hcach : env.isCached e.1 = true
        · simp [depEval, warnSpec, List.filterMap_cons, ha, hn, hcach]
        · have hcf : env.isCached e.1 = false := by
            cases hcv : env.isCached e.1
            · rfl
            · exact absurd hcv hcach
          simp [depEval, warnSpec, List.filterMap_cons, ha, hn, hcf]
      · simp [depEval, warnSpec, List.filterMap_cons, ha, hn,
          Option.isNone_iff_eq_none]
    · cases hf : env.find_valid_path path e.1 with
      | none =>
          rw [show depStep env path acc e = acc by simp [depStep, ha, hf]]
          rw [ih]
          simp [warnSpec, List.filterMap_cons, ha]
      | some full =>
          rw [show depStep env path acc e
                = depEval env full true { acc with updates := acc.updates ++ [(e.1, full)] } by
              simp [depStep, ha, hf]]
          rw [ih]
          simp [depEval, warnSpec, List.filterMap_cons, ha]

theorem foldDep_evals (env : Env) (path : String) (l : ExtDict) (acc : StepAcc) :
    (l.foldl (depStep env path) acc).evals = acc.evals ++ evalSpec env path l := by
  induction l generalizing acc with
  | nil => simp [evalSpec]
  | cons e t ih =>
    rw [List.foldl_cons]
    by_cases ha : env.isAbsolute e.1 = true
    · simp [depStep, ha, depEval, ih, evalSpec]
    · cases hf : env.find_valid_path path e.1 with
      | none => simp [depStep, ha, hf, ih, evalSpec]
      | some full => simp [depStep, ha, hf, depEval, ih, evalSpec]

/-- Full characterization of a non-reentrant `handleDependencies()` pass in
terms of the four spec-side lists. -/
theorem handleDependencies_eq (env : Env) (fm : FileModule)
    (hg : fm.is_handling_dependencies = false) :
    handleDependencies env fm =
      ⟨{ fm with
          externalDict := applyUpdates fm.externalDict (updSpec env fm.path fm.externalDict)
          is_handling_dependencies := false },
        maxList (useMtimes env fm.path fm.externalDict),
        warnSpec env fm.externalDict,
        evalSpec env fm.path fm.externalDict⟩ := by
  simp only [handleDependencies, hg, Bool.false_eq_true, if_false]
  rw [DepResult.mk.injEq]
  refine ⟨?_, ?_, ?_, ?_⟩
  · rw [foldDep_updates]; simp
  · rw [foldDep_latest]; simp [natMax_zero_left]
  · rw [foldDep_diags]; simp
  · rw [foldDep_evals]; simp

/-- Claim C1: a non-reentrant `handleDependencies()` pass returns the maximum
modification time reported by `ModuleCache::evaluate` over all entries of
`resolvedIndex` that have, or obtain during the pass, an absolute-path key
(`useMtimes`); it returns 0 when `resolvedIndex` is empty, and an entry whose
relative key fails to resolve this pass contributes nothing (it produces no
element of `useMtimes`). -/
theorem handleDependencies_max_mtime (env : Env) (fm : FileModule)
    (hg : fm.is_handling_dependencies = false) :
    (handleDependencies env fm).latest = maxList (useMtimes env fm.path fm.externalDict)
    ∧ (∀ t ∈ useMtimes env fm.path fm.externalDict, t ≤ (handleDependencies env fm).latest)
    ∧ (useMtimes env fm.path fm.externalDict ≠ [] →
        (handleDependencies env fm).latest ∈ useMtimes env fm.path fm.externalDict)
    ∧ (fm.externalDict = [] → (handleDependencies env fm).latest = 0) := by
  rw [handleDependencies_eq env fm hg]
  refine ⟨rfl, ?_, ?_, ?_⟩
  · intro t ht
    exact le_maxList ht
  · intro hne
    exact maxList_mem hne
  · intro hd
    rw [hd]
    simp [useMtimes, maxList]

/-- Witness for C1: on `fmC1` under `envC4` the returned maximum is the
maximum of the `evaluate` mtimes of the two effective entries. -/
theorem handleDependencies_max_mtime_witness :
    fmC1.is_handling_dependencies = false ∧
      (handleDependencies envC4 fmC1).latest
        = maxList (useMtimes envC4 fmC1.path fmC1.externalDict) ∧
      (handleDependencies envC4 fmC1).latest = 7 :=
  ⟨rfl, (handleDependencies_max_mtime envC4 fmC1 rfl).1, by decide⟩

theorem warnSpec_mem (env : Env) (l : ExtDict) (f : String) :
    Diag.failedToCompile f ∈ warnSpec env l ↔
      ((∃ v, (f, v) ∈ l) ∧ env.isAbsolute f = true ∧
        (env.evaluate f).1 = none ∧ env.isCached f = false) := by
  induction l with
  | nil => simp [warnSpec]
  | cons e t ih =>
    simp only [warnSpec] at ih ⊢
    rw [List.filterMap_cons]
    by_cases hc : env.isAbsolute e.1 = true ∧ (env.evaluate e.1).1 = none ∧
        env.isCached e.1 = false
    · rw [if_pos hc]
      constructor
      · intro hmem
        rcases List.mem_cons.mp hmem with heq | hmem2
        · have hf : f = e.1 := by
            cases heq; rfl
          subst hf
          exact ⟨⟨e.2, List.mem_cons_self _ _⟩, hc⟩
        · rcases ih.mp hmem2 with ⟨⟨v, hv⟩, rest⟩
          exact ⟨⟨v, List.mem_cons_of_mem _ hv⟩, rest⟩
      · rintro ⟨⟨v, hv⟩, rest⟩
        rcases List.mem_cons.mp hv with heq | hvt
        · have hf : e.1 = f := by
            cases heq; rfl
          rw [hf]
          exact List.mem_cons_self _ _
        · exact List.mem_cons_of_mem _ (ih.mpr ⟨⟨v, hvt⟩, rest⟩)
    · rw [if_neg hc]
      rw [ih]
      constructor
      · rintro ⟨⟨v, hv⟩, rest⟩
        exact ⟨⟨v, List.mem_cons_of_mem _ hv⟩, rest⟩
      · rintro ⟨⟨v, hv⟩, rest⟩
        rcases List.mem_cons.mp hv with heq | hvt
        · exfalso
          apply hc
          have hf : e.1 = f := by
            cases heq; rfl
          rw [hf]
          exact rest
        · exact ⟨⟨v, hvt⟩, rest⟩

theorem warnSpec_count_zero_of_cached (env : Env) (l : ExtDict) (f : String)
    (h : env.isCached f = true) :
    (warnSpec env l).count (Diag.failedToCompile f) = 0 := by
  induction l with
  | nil => simp [warnSpec]
  | cons e t ih =>
    simp only [warnSpec] at ih ⊢
    rw [List.filterMap_cons]
    by_cases hc : env.isAbsolute e.1 = true ∧ (env.evaluate e.1).1 = none ∧
        env.isCached e.1 = false
    · rw [if_pos hc]
      have hne : ¬ (Diag.failedToCompile f = Diag.failedToCompile e.1) := by
        intro h'
        have : f = e.1 := by cases h'; rfl
        rw [this] at h
        exact absurd h (by rw [hc.2.2]; simp)
      simp [List.count_cons, hne, ih]
    · rw [if_neg hc]
      exact ih

theorem warnSpec_count_zero_of_no_key (env : Env) (l : ExtDict) (f : String)
    (h : ∀ p ∈ l, p.1 ≠ f) :
    (warnSpec env l).count (Diag.failedToCompile f) = 0 := by
  induction l with
  | nil => simp [warnSpec]
  | cons e t ih =>
    simp only [warnSpec] at ih ⊢
    rw [List.filterMap_cons]
    have ht : ∀ p ∈ t, p.1 ≠ f := fun p hp => h p (List.mem_cons_of_mem _ hp)
    by_cases hc : env.isAbsolute e.1 = true ∧ (env.evaluate e.1).1 = none ∧
        env.isCached e.1 = false
    · rw [if_pos hc]
      have hne : ¬ (Diag.failedToCompile f = Diag.failedToCompile e.1) := by
        intro h'
        have : f = e.1 := by cases h'; rfl
        exact h e (List.mem_cons_self _ _) this.symm
      simp [List.count_cons, hne, ih ht]
    · rw [if_neg hc]
      exact ih ht

theorem warnSpec_count_one (env : Env) (l : ExtDict) (f : String)
    (hnd : (l.map Prod.fst).Nodup)
    (hv : ∃ v, (f, v) ∈ l)
    (hcond : env.isAbsolute f = true ∧ (env.evaluate f).1 = none ∧
      env.isCached f = false) :
    (warnSpec env l).count (Diag.failedToCompile f) = 1 := by
  induction l with
  | nil => simp at hv
  | cons e t ih =>
    rcases hv with ⟨v, hv⟩
    rcases List.mem_cons.mp hv with heq | hvt
    · have hf : e.1 = f := by
        rw [← heq]
      have hnokey : ∀ p ∈ t, p.1 ≠ f := by
        intro p hp hpf
        rw [List.map_cons, List.nodup_cons] at hnd
        exact hnd.1 (hf ▸ hpf ▸ List.mem_map_of_mem Prod.fst hp)
      simp only [warnSpec, List.filterMap_cons]
      rw [if_pos (by rw [hf]; exact hcond)]
      have hz := warnSpec_count_zero_of_no_key env t f hnokey
      simp only [warnSpec] at hz
      simp [List.count_cons, hf, hz]
    · rw [List.map_cons, List.nodup_cons] at hnd
      have hkey : e.1 ≠ f := by
        intro hpf
        exact hnd.1 (hpf ▸ List.mem_map_of_mem Prod.fst hvt)
      have hrec := ih hnd.2 ⟨v, hvt⟩
      simp only [warnSpec, List.filterMap_cons] at hrec ⊢
      by_cases hc : env.isAbsolute e.1 = true ∧ (env.evaluate e.1).1 = none ∧
          env.isCached e.1 = false
      · rw [if_pos hc]
        have hne : ¬ (Diag.failedToCompile f = Diag.failedToCompile e.1) := by
          intro h'
          have : f = e.1 := by cases h'; rfl
          exact hkey this.symm
        simp [List.count_cons, hne, hrec]
      · rw [if_neg hc]
        exact hrec

/-- Claim C2: during a non-reentrant pass, the `Failed to compile library`
warning for a name `f` is emitted iff `f` is a key of `resolvedIndex`, the key
is absolute (so not known-unresolved before the call), `evaluate` produced no
module, and the path was not already cached; consequently, a reference that
fails to compile on pass 1 and is cached by that failed evaluation produces
exactly one such warning across pass 1 and pass 2. -/
theorem handleDependencies_warning_policy (env1 env2 : Env) (fm : FileModule) (f : String)
    (hg : fm.is_handling_dependencies = false) :
    ((Diag.failedToCompile f ∈ (handleDependencies env1 fm).diags) ↔
      ((∃ v, (f, v) ∈ fm.externalDict) ∧ env1.isAbsolute f = true ∧
        (env1.evaluate f).1 = none ∧ env1.isCached f = false))
    ∧ ((fm.externalDict.map Prod.fst).Nodup →
       (∃ v, (f, v) ∈ fm.externalDict) →
       env1.isAbsolute f = true →
       (env1.evaluate f).1 = none →
       env1.isCached f = false →
       env2.isCached f = true →
       ((handleDependencies env1 fm).diags
          ++ (handleDependencies env2 (handleDependencies env1 fm).fm).diags).count
         (Diag.failedToCompile f) = 1) := by
  rw [handleDependencies_eq env1 fm hg]
  constructor
  · exact warnSpec_mem env1 fm.externalDict f
  · intro hnd hv ha hn hc hc2
    rw [handleDependencies_eq env2 _ rfl]
    rw [List.count_append]
    rw [warnSpec_count_one env1 fm.externalDict f hnd hv ⟨ha, hn, hc⟩]
    rw [warnSpec_count_zero_of_cached env2 _ f hc2]

/-- Witness for C2: across the failing pass 1 and the cached pass 2 exactly
one `Failed to compile library` warning is emitted for `/lib`. -/
theorem handleDependencies_warning_policy_witness :
    ((handleDependencies envC2a fmC2).diags
       ++ (handleDependencies envC2b (handleDependencies envC2a fmC2).fm).diags).count
      (Diag.failedToCompile "/lib") = 1 :=
  (handleDependencies_warning_policy envC2a envC2b fmC2 "/lib" rfl).2
    (by decide) ⟨ExternalNode.useN ⟨"/lib"⟩, by decide⟩ (by decide) rfl rfl rfl

theorem mapLookup_append_left {d e : ExtDict} {k : String} {v : ExternalNode}
    (h : mapLookup d k = some v) : mapLookup (d ++ e) k = some v := by
  induction d with
  | nil => simp [mapLookup] at h
  | cons p t ih =>
    rw [List.cons_append]
    rw [mapLookup] at h ⊢
    by_cases hk : p.1 = k
    · simpa [hk] using h
    · rw [if_neg hk] at h ⊢
      exact ih h

theorem mapLookup_append_right {d e : ExtDict} {k : String}
    (h : mapLookup d k = none) : mapLookup (d ++ e) k = mapLookup e k := by
  induction d with
  | nil => simp
  | cons p t ih =>
    rw [mapLookup] at h
    by_cases hk : p.1 = k
    · rw [if_pos hk] at h
      cases h
    · rw [if_neg hk] at h
      rw [List.cons_append, mapLookup, if_neg hk]
      exact ih h

theorem mapLookup_some_mem {d : ExtDict} {k : String} {v : ExternalNode}
    (h : mapLookup d k = some v) : (k, v) ∈ d := by
  induction d with
  | nil => simp [mapLookup] at h
  | cons p t ih =>
    rw [mapLookup] at h
    by_cases hk : p.1 = k
    · rw [if_pos hk] at h
      injection h with h'
      have hkv : (k, v) = p := by
        rw [← hk, ← h']
      rw [hkv]
      exact List.mem_cons_self _ _
    · rw [if_neg hk] at h
      exact List.mem_cons_of_mem _ (ih h)

theorem mapLookup_insert_preserved {d : ExtDict} {a k : String}
    {b v : ExternalNode} (h : mapLookup d k = some v) :
    mapLookup (mapInsert d a b) k = some v := by
  unfold mapInsert
  cases mapLookup d a with
  | some w => exact h
  | none => exact mapLookup_append_left h

theorem mapLookup_insert_ne {d : ExtDict} {a k : String} {b : ExternalNode}
    (hak : a ≠ k) : mapLookup (mapInsert d a b) k = mapLookup d k := by
  unfold mapInsert
  cases mapLookup d a with
  | some w => rfl
  | none =>
    cases hdk : mapLookup d k with
    | some v => exact mapLookup_append_left hdk
    | none =>
      rw [mapLookup_append_right hdk]
      simp [mapLookup, hak]

theorem mapLookup_insert_self {d : ExtDict} {k : String} {v : ExternalNode}
    (h : mapLookup d k = none) : mapLookup (mapInsert d k v) k = some v := by
  unfold mapInsert
  rw [h, mapLookup_append_right h]
  simp [mapLookup]

theorem mapLookup_erase_ne {d : ExtDict} {a k : String} (hak : a ≠ k) :
    mapLookup (mapErase d a) k = mapLookup d k := by
  induction d with
  | nil => rfl
  | cons p t ih =>
    rw [mapErase, List.filter]
    cases hpa : (!(p.1 == a)) with
    | false =>
      have hp1 : p.1 = a := by
        cases hq : p.1 == a
        · rw [hq] at hpa
          simp at hpa
        · exact beq_iff_eq.mp hq
      rw [mapLookup, if_neg (by rw [hp1]; exact hak)]
      rw [← ih]
      rfl
    | true =>
      rw [mapLookup]
      by_cases hk : p.1 = k
      · rw [if_pos hk, mapLookup, if_pos hk]
      · rw [if_neg hk, mapLookup, if_neg hk]
        rw [← ih]
        rfl

theorem mapLookup_erase_self {d : ExtDict} {a : String} :
    mapLookup (mapErase d a) a = none := by
  induction d with
  | nil => rfl
  | cons p t ih =>
    rw [mapErase, List.filter]
    cases hpa : (!(p.1 == a)) with
    | false =>
      rw [← ih]
      rfl
    | true =>
      have hp1 : p.1 ≠ a := by
        intro hc
        rw [hc] at hpa
        simp at hpa
      rw [mapLookup, if_neg hp1]
      rw [← ih]
      rfl

theorem applyUpdates_eq_foldl (d : ExtDict) (us : List (String × String)) :
    applyUpdates d us = us.foldl applyUpdateOne d := rfl

theorem applyUpdateOne_lookup_ne {d : ExtDict} {p : String × String} {x : String}
    (h1 : p.1 ≠ x) (h2 : p.2 ≠ x) :
    mapLookup (applyUpdateOne d p) x = mapLookup d x := by
  unfold applyUpdateOne
  cases mapLookup d p.1 with
  | none => rfl
  | some node =>
    rw [mapLookup_erase_ne h1, mapLookup_insert_ne h2]

theorem applyUpdates_lookup_untouched (d : ExtDict) (us : List (String × String))
    (x : String) (h : ∀ p ∈ us, p.1 ≠ x ∧ p.2 ≠ x) :
    mapLookup (applyUpdates d us) x = mapLookup d x := by
  rw [applyUpdates_eq_foldl]
  induction us generalizing d with
  | nil => rfl
  | cons p t ih =>
    rw [List.foldl_cons]
    have hp := h p (List.mem_cons_self _ _)
    rw [ih _ (fun q hq => h q (List.mem_cons_of_mem _ hq))]
    exact applyUpdateOne_lookup_ne hp.1 hp.2

theorem applyUpdates_lookup_some_preserved (d : ExtDict)
    (us : List (String × String)) (x : String) (v : ExternalNode)
    (hx : mapLookup d x = some v) (h : ∀ p ∈ us, p.1 ≠ x) :
    mapLookup (applyUpdates d us) x = some v := by
  rw [applyUpdates_eq_foldl]
  induction us generalizing d with
  | nil => exact hx
  | cons p t ih =>
    rw [List.foldl_cons]
    have hp := h p (List.mem_cons_self _ _)
    apply ih
    · unfold applyUpdateOne
      cases mapLookup d p.1 with
      | none => exact hx
      | some node =>
        rw [mapLookup_erase_ne hp, mapLookup_insert_preserved hx]
    · exact fun q hq => h q (List.mem_cons_of_mem _ hq)

theorem applyUpdateOne_promote {d : ExtDict} {k f : String} {node : ExternalNode}
    (hk : mapLookup d k = some node) (hfn : mapLookup d f = none) (hfk : f ≠ k) :
    mapLookup (applyUpdateOne d (k, f)) f = some node ∧
      mapLookup (applyUpdateOne d (k, f)) k = none := by
  have hd : applyUpdateOne d (k, f) = mapErase (mapInsert d f node) k := by
    unfold applyUpdateOne
    simp only [hk]
  rw [hd]
  constructor
  · rw [mapLookup_erase_ne (fun hc => hfk hc.symm)]
    exact mapLookup_insert_self hfn
  · exact mapLookup_erase_self

theorem applyUpdates_promote (d : ExtDict) (us1 us2 : List (String × String))
    (k f : String) (node : ExternalNode)
    (hk : mapLookup d k = some node) (hfn : mapLookup d f = none) (hfk : f ≠ k)
    (h1 : ∀ p ∈ us1, p.1 ≠ k ∧ p.2 ≠ k ∧ p.1 ≠ f ∧ p.2 ≠ f)
    (h2 : ∀ p ∈ us2, p.1 ≠ k ∧ p.2 ≠ k ∧ p.1 ≠ f ∧ p.2 ≠ f) :
    mapLookup (applyUpdates d (us1 ++ (k, f) :: us2)) f = some node ∧
      mapLookup (applyUpdates d (us1 ++ (k, f) :: us2)) k = none := by
  have hsplit : applyUpdates d (us1 ++ (k, f) :: us2)
      = applyUpdates (applyUpdateOne (applyUpdates d us1) (k, f)) us2 := by
    simp only [applyUpdates_eq_foldl]
    rw [List.foldl_append, List.foldl_cons]
  rw [hsplit]
  have hmk : mapLookup (applyUpdates d us1) k = some node := by
    rw [applyUpdates_lookup_untouched d us1 k (fun p hp => ⟨(h1 p hp).1, (h1 p hp).2.1⟩)]
    exact hk
  have hmf : mapLookup (applyUpdates d us1) f = none := by
    rw [applyUpdates_lookup_untouched d us1 f (fun p hp => ⟨(h1 p hp).2.2.1, (h1 p hp).2.2.2⟩)]
    exact hfn
  have hpp := applyUpdateOne_promote hmk hmf hfk
  constructor
  · rw [applyUpdates_lookup_untouched _ us2 f (fun p hp => ⟨(h2 p hp).2.2.1, (h2 p hp).2.2.2⟩)]
    exact hpp.1
  · rw [applyUpdates_lookup_untouched _ us2 k (fun p hp => ⟨(h2 p hp).1, (h2 p hp).2.1⟩)]
    exact hpp.2

theorem bool_eq_false {b : Bool} (h : ¬ b = true) : b = false := by
  cases b
  · rfl
  · exact absurd rfl h

theorem updSpec_mem (env : Env) (path : String) (l : ExtDict) (p : String × String) :
    p ∈ updSpec env path l ↔
      ∃ v, (p.1, v) ∈ l ∧ env.isAbsolute p.1 = false ∧
        env.find_valid_path path p.1 = some p.2 := by
  induction l with
  | nil => simp [updSpec]
  | cons e t ih =>
    simp only [updSpec, List.filterMap_cons] at ih ⊢
    by_cases ha : env.isAbsolute e.1 = true
    · rw [if_pos ha]
      rw [ih]
      constructor
      · rintro ⟨v, hv, habs, hfind⟩
        exact ⟨v, List.mem_cons_of_mem _ hv, habs, hfind⟩
      · rintro ⟨v, hv, habs, hfind⟩
        rcases List.mem_cons.mp hv with heq | hvt
        · exfalso
          have h1 : p.1 = e.1 := by
            rw [← heq]
          rw [h1, ha] at habs
          cases habs
        · exact ⟨v, hvt, habs, hfind⟩
    · rw [if_neg ha]
      cases hf : env.find_valid_path path e.1 with
      | none =>
        simp only [Option.map_none']
        rw [ih]
        constructor
        · rintro ⟨v, hv, habs, hfind⟩
          exact ⟨v, List.mem_cons_of_mem _ hv, habs, hfind⟩
        · rintro ⟨v, hv, habs, hfind⟩
          rcases List.mem_cons.mp hv with heq | hvt
          · exfalso
            have h1 : p.1 = e.1 := by
              rw [← heq]
            rw [h1, hf] at hfind
            cases hfind
          · exact ⟨v, hvt, habs, hfind⟩
      | some full =>
        simp only [Option.map_some']
        rw [List.mem_cons, ih]
        constructor
        · rintro (heq | ⟨v, hv, habs, hfind⟩)
          · refine ⟨e.2, ?_, ?_, ?_⟩
            · rw [heq]
              exact List.mem_cons_self _ _
            · rw [heq]
              exact bool_eq_false ha
            · rw [heq]
              exact hf
          · exact ⟨v, List.mem_cons_of_mem _ hv, habs, hfind⟩
        · rintro ⟨v, hv, habs, hfind⟩
          rcases List.mem_cons.mp hv with heq | hvt
          · left
            have h1 : p.1 = e.1 := by
              rw [← heq]
            rw [h1, hf] at hfind
            injection hfind with h2
            have hp : p = (p.1, p.2) := rfl
            rw [hp, h1, ← h2]
          · right
            exact ⟨v, hvt, habs, hfind⟩

theorem updSpec_firsts_sublist (env : Env) (path : String) (l : ExtDict) :
    ((updSpec env path l).map Prod.fst).Sublist (l.map Prod.fst) := by
  induction l with
  | nil => simp [updSpec]
  | cons e t ih =>
    simp only [updSpec, List.filterMap_cons, List.map_cons] at ih ⊢
    by_cases ha : env.isAbsolute e.1 = true
    · rw [if_pos ha]
      exact List.Sublist.cons _ ih
    · rw [if_neg ha]
      cases hf : env.find_valid_path path e.1 with
      | none =>
        simp only [Option.map_none']
        exact List.Sublist.cons _ ih
      | some full =>
        simp only [Option.map_some', List.map_cons]
        exact List.Sublist.cons₂ _ ih

theorem nodup_firsts_split {us1 us2 : List (String × String)} {q : String × String}
    (h : ((us1 ++ q :: us2).map Prod.fst).Nodup) :
    (∀ p ∈ us1, p.1 ≠ q.1) ∧ (∀ p ∈ us2, p.1 ≠ q.1) := by
  rw [List.map_append, List.map_cons, List.nodup_append] at h
  obtain ⟨h1, h2, hdis⟩ := h
  constructor
  · intro p hp hpq
    exact hdis (List.mem_map_of_mem Prod.fst hp)
      (by rw [hpq]; exact List.mem_cons_self _ _)
  · intro p hp hpq
    rw [List.nodup_cons] at h2
    exact h2.1 (hpq ▸ List.mem_map_of_mem Prod.fst hp)

/-- Claim C3 (amended): after a non-reentrant pass, an entry whose relative key
resolved this pass to a path `f` that is not already a key of `resolvedIndex`
and is not the resolution target of any other relative entry is re-keyed under
`f` with the same reference node, and the old relative key is removed; an entry
whose resolution fails keeps its relative key with its node; and a reference
whose file appears between pass 1 and pass 2 is promoted to its absolute key
and handed to `ModuleCache::evaluate` on pass 2. -/
theorem handleDependencies_rekey (env env2 : Env) (fm : FileModule)
    (k f : String) (node : ExternalNode)
    (hg : fm.is_handling_dependencies = false) :
    (((fm.externalDict.map Prod.fst).Nodup) →
     (∀ s t, env.find_valid_path fm.path s = some t → env.isAbsolute t = true) →
     mapLookup fm.externalDict k = some node →
     env.isAbsolute k = false →
     env.find_valid_path fm.path k = some f →
     mapLookup fm.externalDict f = none →
     (∀ e ∈ fm.externalDict, e.1 ≠ k → env.isAbsolute e.1 = false →
        env.find_valid_path fm.path e.1 ≠ some f) →
     (mapLookup (handleDependencies env fm).fm.externalDict f = some node ∧
      mapLookup (handleDependencies env fm).fm.externalDict k = none))
    ∧
    (mapLookup fm.externalDict k = some node →
     env.isAbsolute k = false →
     env.find_valid_path fm.path k = none →
     mapLookup (handleDependencies env fm).fm.externalDict k = some node)
    ∧
    (fm.externalDict = [(k, node)] →
     env.isAbsolute k = false →
     env.find_valid_path fm.path k = none →
     env2.isAbsolute k = false →
     env2.find_valid_path fm.path k = some f →
     f ≠ k →
     ((handleDependencies env fm).fm.externalDict = [(k, node)] ∧
      mapLookup (handleDependencies env2 (handleDependencies env fm).fm).fm.externalDict f
        = some node ∧
      mapLookup (handleDependencies env2 (handleDependencies env fm).fm).fm.externalDict k
        = none ∧
      f ∈ (handleDependencies env2 (handleDependencies env fm).fm).evals)) := by
  refine ⟨?_, ?_, ?_⟩
  · intro hnd habs hk hkrel hkf hfn huniq
    have habsf : env.isAbsolute f = true := habs k f hkf
    have hfk : f ≠ k := by
      intro hc
      rw [hc, hkrel] at habsf
      cases habsf
    have hqmem : (k, f) ∈ updSpec env fm.path fm.externalDict :=
      (updSpec_mem env fm.path fm.externalDict (k, f)).mpr
        ⟨node, mapLookup_some_mem hk, hkrel, hkf⟩
    obtain ⟨us1, us2, hsplit⟩ := List.append_of_mem hqmem
    have hnd_upd : ((updSpec env fm.path fm.externalDict).map Prod.fst).Nodup :=
      List.Nodup.sublist (updSpec_firsts_sublist env fm.path fm.externalDict) hnd
    rw [hsplit] at hnd_upd
    obtain ⟨hfirst1, hfirst2⟩ := nodup_firsts_split hnd_upd
    have hside : ∀ p, p ∈ updSpec env fm.path fm.externalDict → p.1 ≠ k →
        p.1 ≠ k ∧ p.2 ≠ k ∧ p.1 ≠ f ∧ p.2 ≠ f := by
      intro p hpu hpk
      obtain ⟨v, hvl, hpabs, hpfind⟩ :=
        (updSpec_mem env fm.path fm.externalDict p).mp hpu
      refine ⟨hpk, ?_, ?_, ?_⟩
      · intro hc
        have := habs p.1 p.2 hpfind
        rw [hc, hkrel] at this
        cases this
      · intro hc
        rw [hc, habsf] at hpabs
        cases hpabs
      · intro hc
        apply huniq (p.1, v) hvl hpk hpabs
        rw [hpfind, hc]
    rw [handleDependencies_eq env fm hg]
    have hgoal :
        mapLookup (applyUpdates fm.externalDict (updSpec env fm.path fm.externalDict)) f
          = some node ∧
        mapLookup (applyUpdates fm.externalDict (updSpec env fm.path fm.externalDict)) k
          = none := by
      rw [hsplit]
      apply applyUpdates_promote fm.externalDict us1 us2 k f node hk hfn hfk
      · intro p hp
        exact hside p (by rw [hsplit]; exact List.mem_append_left _ hp)
          (hfirst1 p hp)
      · intro p hp
        exact hside p
          (by rw [hsplit]; exact List.mem_append_right _ (List.mem_cons_of_mem _ hp))
          (hfirst2 p hp)
    exact hgoal
  · intro hk hkrel hkf0
    rw [handleDependencies_eq env fm hg]
    apply applyUpdates_lookup_some_preserved _ _ _ _ hk
    intro p hp hpk
    obtain ⟨v, hvl, hpabs, hpfind⟩ :=
      (updSpec_mem env fm.path fm.externalDict p).mp hp
    rw [hpk, hkf0] at hpfind
    cases hpfind
  · intro hdict h1a h1f h2a h2f hfk
    have hupd1 : updSpec env fm.path fm.externalDict = [] := by
      rw [hdict]
      simp [updSpec, h1a, h1f]
    have hst1 : (handleDependencies env fm).fm = fm := by
      rw [handleDependencies_eq env fm hg, hupd1]
      show { fm with externalDict := fm.externalDict, is_handling_dependencies := false } = fm
      rw [← hg]
    have hupd2 : updSpec env2 fm.path fm.externalDict = [(k, f)] := by
      rw [hdict]
      simp [updSpec, h2a, h2f]
    have heval2 : evalSpec env2 fm.path fm.externalDict = [f] := by
      rw [hdict]
      simp [evalSpec, h2a, h2f]
    have happ : applyUpdates fm.externalDict (updSpec env2 fm.path fm.externalDict)
        = [(f, node)] := by
      rw [hupd2, hdict, applyUpdates_eq_foldl, List.foldl_cons, List.foldl_nil]
      have hl1 : mapLookup [(k, node)] (k, f).1 = some node := by
        simp [mapLookup]
      rw [show applyUpdateOne [(k, node)] (k, f) = mapErase (mapInsert [(k, node)] f node) k from by
        unfold applyUpdateOne
        simp only [hl1]]
      have hl2 : mapLookup [(k, node)] f = none := by
        simp [mapLookup, Ne.symm hfk]
      rw [mapInsert, hl2]
      have hbeq : (f == k) = false := by
        cases hq : f == k
        · rfl
        · exact absurd (beq_iff_eq.mp hq) hfk
      simp [mapErase, List.filter, hbeq]
    refine ⟨?_, ?_, ?_, ?_⟩
    · rw [hst1, hdict]
    · rw [hst1, handleDependencies_eq env2 fm hg]
      show mapLookup (applyUpdates fm.externalDict (updSpec env2 fm.path fm.externalDict)) f
        = some node
      rw [happ]
      simp [mapLookup]
    · rw [hst1, handleDependencies_eq env2 fm hg]
      show mapLookup (applyUpdates fm.externalDict (updSpec env2 fm.path fm.externalDict)) k
        = none
      rw [happ]
      simp [mapLookup, hfk]
    · rw [hst1, handleDependencies_eq env2 fm hg]
      show f ∈ evalSpec env2 fm.path fm.externalDict
      rw [heval2]
      exact List.mem_cons_self _ _

/-- Counterexample to claim C3 as stated: the entry keyed `rel` is resolved
successfully to `/a` this pass, yet after the pass `/a` is *not* mapped to
`rel`'s reference node (because `std::map::insert` does not overwrite the
pre-existing binding of `/a`); the relative key is removed, so `rel`'s node
drops out of `resolvedIndex` entirely. -/
theorem handleDependencies_rekey_cex :
    (envC3.isAbsolute "rel" = false ∧
     envC3.find_valid_path fmC3.path "rel" = some "/a" ∧
     mapLookup fmC3.externalDict "rel" = some (ExternalNode.useN ⟨"rel"⟩) ∧
     fmC3.is_handling_dependencies = false) ∧
    mapLookup (handleDependencies envC3 fmC3).fm.externalDict "/a"
      ≠ some (ExternalNode.useN ⟨"rel"⟩) ∧
    mapLookup (handleDependencies envC3 fmC3).fm.externalDict "/a"
      = some (ExternalNode.useN ⟨"/a"⟩) ∧
    mapLookup (handleDependencies envC3 fmC3).fm.externalDict "rel" = none := by
  decide

/-- Witness for the amended C3: `rel` is promoted to `/b` with its node. -/
theorem handleDependencies_rekey_witness :
    mapLookup (handleDependencies envC3w fmC3w).fm.externalDict "/b"
      = some (ExternalNode.useN ⟨"rel"⟩) ∧
    mapLookup (handleDependencies envC3w fmC3w).fm.externalDict "rel" = none := by
  refine (handleDependencies_rekey envC3w envC3w fmC3w "rel" "/b"
    (ExternalNode.useN ⟨"rel"⟩) rfl).1 ?_ ?_ ?_ ?_ ?_ ?_ ?_
  · decide
  · intro s t hst
    have heq : envC3w.find_valid_path fmC3w.path s
        = (if s == "rel" then some "/b" else none) := rfl
    rw [heq] at hst
    split at hst
    · injection hst with h1
      rw [← h1]
      rfl
    · cases hst
  · decide
  · decide
  · decide
  · decide
  · intro e he hne habs2
    exact absurd (congrArg Prod.fst (List.mem_singleton.mp he)) hne

theorem foldl_incStep (env : Env) (l : List ExternalNode) (a : Nat) :
    l.foldl (incStep env) a = List.foldl natMax a (includeMtimes env l) := by
  induction l generalizing a with
  | nil => simp [includeMtimes]
  | cons e t ih =>
    cases e with
    | useN u => simp [incStep, includeMtimes, List.filterMap_cons, ih]
    | incN i =>
      simp only [List.foldl_cons, incStep, includeMtimes, List.filterMap_cons,
        ite_gt_eq_natMax]
      rw [ih]
      rfl

/-- Claim C6: `includesChanged()` returns the maximum `includeModified` value
over the Include references of `externalList` (0 when there are none);
`includeModified` stats the node's filename through `StatCache` and yields 0
when the stat fails; and `includesChanged` depends only on the `StatCache`
oracle, not on any `ModuleCache` operation. -/
theorem includesChanged_spec (env env2 : Env) (fm : FileModule)
    (a b : IncludeNode) (t1 t2 : Nat) :
    (includesChanged env fm = maxList (includeMtimes env fm.externalList))
    ∧ (∀ t ∈ includeMtimes env fm.externalList, t ≤ includesChanged env fm)
    ∧ (includeMtimes env fm.externalList = [] → includesChanged env fm = 0)
    ∧ (env.statMtime = env2.statMtime → includesChanged env fm = includesChanged env2 fm)
    ∧ (fm.externalList = [ExternalNode.incN a, ExternalNode.incN b] →
       env.statMtime a.filename = some t1 → env.statMtime b.filename = some t2 →
       t1 < t2 → includesChanged env fm = t2)
    ∧ (∀ i : IncludeNode, env.statMtime i.filename = none → includeModified env i = 0) := by
  have hbase : includesChanged env fm = maxList (includeMtimes env fm.externalList) := by
    rw [includesChanged, foldl_incStep]
    rfl
  refine ⟨hbase, ?_, ?_, ?_, ?_, ?_⟩
  · intro t ht
    rw [hbase]
    exact le_maxList ht
  · intro hmt
    rw [hbase, hmt]
    rfl
  · intro hst
    have hstep : incStep env = incStep env2 := by
      funext latest item
      cases item with
      | useN u => rfl
      | incN i => simp [incStep, includeModified, hst]
    rw [includesChanged, includesChanged, hstep]
  · intro hl hsa hsb hlt
    rw [includesChanged, hl]
    simp only [List.foldl_cons, List.foldl_nil, incStep, includeModified, hsa, hsb]
    repeat' split
    all_goals omega
  · intro i h
    rw [includeModified, h]

/-- Witness for C6: with include mtimes 3 < 9 the result is 9. -/
theorem includesChanged_spec_witness :
    includesChanged envC6 fmC6 = 9 :=
  (includesChanged_spec envC6 envC6 fmC6 ⟨"i1"⟩ ⟨"i2"⟩ 3 9).2.2.2.2.1
    rfl (by decide) (by decide) (by omega)

/-- Claim C7: `instantiate` (via `instantiateWithFileContext`) always returns
a root node and never lets an evaluation-time exception escape: on success the
root carries the instantiated children and nothing is reported, and on an
exception from context initialization or child instantiation the error is
reported as a diagnostic and the root node with the children collected before
the exception (necessarily none, as insertion follows both fallible steps) is
returned. -/
theorem instantiate_contained (env : Env) :
    (∀ cs, env.initModule = Except.ok () → env.instantiateChildren = Except.ok cs →
      instantiate env = (⟨cs⟩, []))
    ∧ (∀ e, env.initModule = Except.error e →
      instantiate env = (⟨[]⟩, [Diag.evalError e]))
    ∧ (∀ e, env.initModule = Except.ok () → env.instantiateChildren = Except.error e →
      instantiate env = (⟨[]⟩, [Diag.evalError e]))
    ∧ (∃ root diags, instantiate env = (root, diags)
        ∧ (diags = [] ∨ ∃ e, diags = [Diag.evalError e] ∧ root.children = [])) := by
  refine ⟨?_, ?_, ?_, ?_⟩
  · intro cs h1 h2
    simp [instantiate, instantiateWithFileContext, h1, h2]
  · intro e h1
    simp [instantiate, instantiateWithFileContext, h1]
  · intro e h1 h2
    simp [instantiate, instantiateWithFileContext, h1, h2]
  · cases h1 : env.initModule with
    | error e =>
      exact ⟨⟨[]⟩, [Diag.evalError e], by simp [instantiate, instantiateWithFileContext, h1],
        Or.inr ⟨e, rfl, rfl⟩⟩
    | ok u =>
      cases h2 : env.instantiateChildren with
      | error e =>
        exact ⟨⟨[]⟩, [Diag.evalError e],
          by simp [instantiate, instantiateWithFileContext, h1, h2],
          Or.inr ⟨e, rfl, rfl⟩⟩
      | ok cs =>
        exact ⟨⟨cs⟩, [],
          by simp [instantiate, instantiateWithFileContext, h1, h2], Or.inl rfl⟩

/-- Witness for C7: a failing `initializeModule` yields a reported diagnostic
and an empty root node, not an escaping exception. -/
theorem instantiate_contained_witness :
    instantiate envC7 = (⟨[]⟩, [Diag.evalError "ExperimentalFeatureException"]) :=
  (instantiate_contained envC7).2.1 "ExperimentalFeatureException" rfl

/-- Claim C8: an include whose path does not resolve produces a warning and
only that reference is skipped (the tail of the list is still processed);
an include that resolves but cannot be opened, or cannot be parsed, aborts
the remaining include-attachment loop; and `resolveExternals()` still runs
`resolveUseNodes()` in full afterwards (its module state and font trace are
exactly those of `resolveUseNodes`). -/
theorem includeResolution_policy (env : Env) (path : String) (i : IncludeNode)
    (rest : List ExternalNode) (fm : FileModule) :
    (env.find_valid_path path i.filename = none →
      resolveIncludeNodes env path (ExternalNode.incN i :: rest)
        = Diag.warnCantOpenInclude i.filename :: resolveIncludeNodes env path rest)
    ∧ (∀ full, env.find_valid_path path i.filename = some full →
        env.canOpen full = false →
        resolveIncludeNodes env path (ExternalNode.incN i :: rest)
          = [Diag.cantOpenIncludeHard full])
    ∧ (∀ full, env.find_valid_path path i.filename = some full →
        env.canOpen full = true → env.parseOk full = false →
        resolveIncludeNodes env path (ExternalNode.incN i :: rest)
          = [Diag.cantParseInclude full])
    ∧ ((resolveExternals env fm).fm = (resolveUseNodes env fm).fm
        ∧ (resolveExternals env fm).fonts = (resolveUseNodes env fm).fonts) := by
  refine ⟨?_, ?_, ?_, rfl, rfl⟩
  · intro h
    simp [resolveIncludeNodes, h]
  · intro full h ho
    simp [resolveIncludeNodes, h, ho]
  · intro full h ho hp
    simp [resolveIncludeNodes, h, ho, hp]

/-- Witness for C8 at a concrete unopenable include. -/
theorem includeResolution_policy_witness :
    resolveIncludeNodes envC8 "/p"
        [ExternalNode.incN ⟨"inc"⟩, ExternalNode.incN ⟨"other"⟩]
      = [Diag.cantOpenIncludeHard "/inc"] :=
  (includeResolution_policy envC8 "/p" ⟨"inc"⟩ [ExternalNode.incN ⟨"other"⟩] fmC4).2.1
    "/inc" (by decide) rfl

theorem useFold_dict (env : Env) (path : String) (l : List ExternalNode) (acc : UseAcc) :
    (l.foldl (useStep env path) acc).dict = l.foldl (useDictStep env) acc.dict := by
  induction l generalizing acc with
  | nil => rfl
  | cons e t ih =>
    cases e with
    | incN i => simp [useStep, useDictStep, ih]
    | useN u =>
      by_cases hf : isFontExt (env.extension u.filename) = true
      · by_cases hr : env.is_regular u.filename = true
        · simp [useStep, useDictStep, hf, hr, ih]
        · simp [useStep, useDictStep, hf, hr, ih]
      · simp [useStep, useDictStep, hf, ih]

theorem mapInsert_isSome {d : ExtDict} {a k : String} {b : ExternalNode}
    (h : (mapLookup d k).isSome = true) :
    (mapLookup (mapInsert d a b) k).isSome = true := by
  cases hk : mapLookup d k with
  | none => rw [hk] at h; cases h
  | some v => rw [mapLookup_insert_preserved hk]; rfl

theorem mapInsert_lookup_self_isSome (d : ExtDict) (k : String) (v : ExternalNode) :
    (mapLookup (mapInsert d k v) k).isSome = true := by
  cases h : mapLookup d k with
  | none => rw [mapLookup_insert_self h]; rfl
  | some w =>
    have : mapInsert d k v = d := by
      rw [mapInsert, h]
    rw [this, h]
    rfl

theorem mapInsert_of_isSome {d : ExtDict} {k : String} {v : ExternalNode}
    (h : (mapLookup d k).isSome = true) : mapInsert d k v = d := by
  cases hk : mapLookup d k with
  | none => rw [hk] at h; cases h
  | some w => rw [mapInsert, hk]

theorem useDictFold_isSome (env : Env) (l : List ExternalNode) (d : ExtDict) (k : String)
    (h : (mapLookup d k).isSome = true) :
    (mapLookup (l.foldl (useDictStep env) d) k).isSome = true := by
  induction l generalizing d with
  | nil => exact h
  | cons e t ih =>
    rw [List.foldl_cons]
    apply ih
    cases e with
    | incN i => exact h
    | useN u =>
      by_cases hf : isFontExt (env.extension u.filename) = true
      · simpa [useDictStep, hf] using h
      · rw [show useDictStep env d (ExternalNode.useN u)
              = mapInsert d u.filename (ExternalNode.useN u) from by
            simp [useDictStep, hf]]
        exact mapInsert_isSome h

theorem useDictFold_font_unchanged (env : Env) (l : List ExternalNode) (d : ExtDict)
    (k : String) (hfont : isFontExt (env.extension k) = true) :
    mapLookup (l.foldl (useDictStep env) d) k = mapLookup d k := by
  induction l generalizing d with
  | nil => rfl
  | cons e t ih =>
    rw [List.foldl_cons]
    cases e with
    | incN i => exact ih d
    | useN u =>
      by_cases huk : u.filename = k
      · have hf : isFontExt (env.extension u.filename) = true := by
          rw [huk]
          exact hfont
        simp only [useDictStep, hf, if_pos]
        exact ih d
      · by_cases hf : isFontExt (env.extension u.filename) = true
        · simp only [useDictStep, hf, if_pos]
          exact ih d
        · simp only [useDictStep, if_neg hf]
          rw [ih (mapInsert d u.filename (ExternalNode.useN u))]
          exact mapLookup_insert_ne huk

theorem useDictFold_nonfont_mem (env : Env) (l : List ExternalNode) (d : ExtDict)
    (u : UseNode) (hu : ExternalNode.useN u ∈ l)
    (hnf : isFontExt (env.extension u.filename) = false) :
    (mapLookup (l.foldl (useDictStep env) d) u.filename).isSome = true := by
  induction l generalizing d with
  | nil => cases hu
  | cons e t ih =>
    rw [List.foldl_cons]
    rcases List.mem_cons.mp hu with heq | hut
    · rw [← heq]
      rw [show useDictStep env d (ExternalNode.useN u)
            = mapInsert d u.filename (ExternalNode.useN u) from by
          simp [useDictStep, hnf]]
      exact useDictFold_isSome env t _ u.filename (mapInsert_lookup_self_isSome _ _ _)
    · exact ih _ hut

/-- Claim C5 (amended): for every Use reference, classification is by the
lowercased extension of the as-written filename: a font extension
(`.otf`/`.ttf`, case-insensitively) means the reference is never inserted into
`resolvedIndex`, and the as-written path is handed to the font registry
exactly once provided the path names a regular file — otherwise a font error
is reported and no registration occurs; every other extension is inserted as
`{asWrittenString -> reference}` unconditionally, in particular even when
path resolution fails (the resolution result is computed but never used). -/
theorem resolveUseNodes_classification (env : Env) (fm : FileModule)
    (k : String) (u : UseNode) :
    (isFontExt (env.extension k) = true →
      mapLookup (resolveUseNodes env fm).fm.externalDict k
        = mapLookup fm.externalDict k)
    ∧ (ExternalNode.useN u ∈ fm.externalList →
       isFontExt (env.extension u.filename) = false →
       (mapLookup (resolveUseNodes env fm).fm.externalDict u.filename).isSome = true)
    ∧ (fm.externalList = [ExternalNode.useN u] →
       isFontExt (env.extension u.filename) = true →
       env.is_regular u.filename = true →
       ((resolveUseNodes env fm).fonts = [u.filename]
         ∧ (resolveUseNodes env fm).diags = []
         ∧ (resolveUseNodes env fm).fm.externalDict = fm.externalDict))
    ∧ (fm.externalList = [ExternalNode.useN u] →
       isFontExt (env.extension u.filename) = true →
       env.is_regular u.filename = false →
       ((resolveUseNodes env fm).fonts = []
         ∧ (resolveUseNodes env fm).diags = [Diag.fontError u.filename])) := by
  have hdict : (resolveUseNodes env fm).fm.externalDict
      = fm.externalList.foldl (useDictStep env) fm.externalDict := by
    show (fm.externalList.foldl (useStep env fm.path) ⟨fm.externalDict, [], []⟩).dict
      = fm.externalList.foldl (useDictStep env) fm.externalDict
    rw [useFold_dict]
  refine ⟨?_, ?_, ?_, ?_⟩
  · intro hfont
    rw [hdict]
    exact useDictFold_font_unchanged env fm.externalList fm.externalDict k hfont
  · intro hu hnf
    rw [hdict]
    exact useDictFold_nonfont_mem env fm.externalList fm.externalDict u hu hnf
  · intro hl hf hr
    refine ⟨?_, ?_, ?_⟩
    · show (fm.externalList.foldl (useStep env fm.path) ⟨fm.externalDict, [], []⟩).fonts
        = [u.filename]
      rw [hl]
      simp [useStep, hf, hr]
    · show (fm.externalList.foldl (useStep env fm.path) ⟨fm.externalDict, [], []⟩).diags = []
      rw [hl]
      simp [useStep, hf, hr]
    · rw [hdict, hl]
      simp [useDictStep, hf]
  · intro hl hf hr
    constructor
    · show (fm.externalList.foldl (useStep env fm.path) ⟨fm.externalDict, [], []⟩).fonts = []
      rw [hl]
      simp [useStep, hf, hr]
    · show (fm.externalList.foldl (useStep env fm.path) ⟨fm.externalDict, [], []⟩).diags
        = [Diag.fontError u.filename]
      rw [hl]
      simp [useStep, hf, hr]

/-- Counterexample to claim C5 as stated: the extension of `Foo.TTF` matches
`.ttf` case-insensitively and the reference indeed never enters
`resolvedIndex`, but the path is *not* handed to the font registry — because
`fs::is_regular` is false, the code emits a font error and performs zero
registration calls, not exactly one. -/
theorem resolveUseNodes_font_cex :
    isFontExt (envC5.extension "Foo.TTF") = true ∧
    mapLookup (resolveUseNodes envC5 fmC5).fm.externalDict "Foo.TTF" = none ∧
    (resolveUseNodes envC5 fmC5).fonts = [] ∧
    (resolveUseNodes envC5 fmC5).diags = [Diag.fontError "Foo.TTF"] := by
  decide

/-- Witness for the amended C5: the regular mixed-case font file is registered
exactly once and `resolvedIndex` is untouched. -/
theorem resolveUseNodes_classification_witness :
    (resolveUseNodes envC5reg fmC5).fonts = ["Foo.TTF"]
      ∧ (resolveUseNodes envC5reg fmC5).diags = []
      ∧ (resolveUseNodes envC5reg fmC5).fm.externalDict = fmC5.externalDict :=
  (resolveUseNodes_classification envC5reg fmC5 "Foo.TTF" ⟨"Foo.TTF"⟩).2.2.1
    rfl (by decide) rfl

theorem useDictFold_stable (env : Env) (l : List ExternalNode) (d : ExtDict)
    (h : ∀ u : UseNode, ExternalNode.useN u ∈ l →
      isFontExt (env.extension u.filename) = false →
      (mapLookup d u.filename).isSome = true) :
    l.foldl (useDictStep env) d = d := by
  induction l generalizing d with
  | nil => rfl
  | cons e t ih =>
    rw [List.foldl_cons]
    have hstep : useDictStep env d e = d := by
      cases e with
      | incN i => rfl
      | useN u =>
        by_cases hf : isFontExt (env.extension u.filename) = true
        · simp [useDictStep, hf]
        · have hsome := h u (List.mem_cons_self _ _) (bool_eq_false hf)
          simp only [useDictStep, if_neg hf]
          exact mapInsert_of_isSome hsome
    rw [hstep]
    exact ih d (fun u hu hnf => h u (List.mem_cons_of_mem _ hu) hnf)

/-- Claim C9: `resolveExternals()` is idempotent on `resolvedIndex`: running
it a second time on the unchanged reference list (and unchanged filesystem
oracle) leaves `externalDict` exactly as after the first run — every key the
second pass would insert is already present, and `std::map::insert` is then a
no-op. -/
theorem resolveExternals_idempotent (env : Env) (fm : FileModule) :
    (resolveExternals env (resolveExternals env fm).fm).fm.externalDict
      = (resolveExternals env fm).fm.externalDict := by
  have hdict1 : (resolveExternals env fm).fm.externalDict
      = fm.externalList.foldl (useDictStep env) fm.externalDict := by
    show (fm.externalList.foldl (useStep env fm.path) ⟨fm.externalDict, [], []⟩).dict = _
    rw [useFold_dict]
  have hdict2 : (resolveExternals env (resolveExternals env fm).fm).fm.externalDict
      = fm.externalList.foldl (useDictStep env)
          ((resolveExternals env fm).fm.externalDict) := by
    show ((resolveExternals env fm).fm.externalList.foldl
        (useStep env (resolveExternals env fm).fm.path)
        ⟨(resolveExternals env fm).fm.externalDict, [], []⟩).dict = _
    rw [useFold_dict]
    rfl
  rw [hdict2, hdict1]
  apply useDictFold_stable
  intro u hu hnf
  exact useDictFold_nonfont_mem env fm.externalList fm.externalDict u hu hnf

/-- Claim C10: the reentrancy guard is cleared only on the normal exit path:
when `ModuleCache::evaluate` raises during the pass, the exception escapes
with `is_handling_dependencies` left true, and every subsequent
`handleDependencies()` call on that state returns 0 immediately, with no
resolution, no diagnostics and no `evaluate` calls. -/
theorem handleDependenciesE_guard_stuck (env : EnvE) (fm : FileModule) (e : String)
    (h : (handleDependenciesE env fm).2 = Except.error e) :
    (handleDependenciesE env fm).1.is_handling_dependencies = true
    ∧ (handleDependenciesE env fm).1.externalDict = fm.externalDict
    ∧ (∀ env2 : EnvE, handleDependenciesE env2 (handleDependenciesE env fm).1
        = ((handleDependenciesE env fm).1, Except.ok ⟨0, [], []⟩))
    ∧ (∀ env3 : Env, handleDependencies env3 (handleDependenciesE env fm).1
        = ⟨(handleDependenciesE env fm).1, 0, [], []⟩) := by
  by_cases hg : fm.is_handling_dependencies = true
  · exfalso
    rw [handleDependenciesE] at h
    rw [if_pos hg] at h
    cases h
  · have hg2 : fm.is_handling_dependencies = false := bool_eq_false hg
    cases hfold : foldDepE env fm.path fm.externalDict ⟨[], 0, [], []⟩ with
    | ok acc =>
      exfalso
      rw [handleDependenciesE] at h
      rw [if_neg (by rw [hg2]; exact Bool.false_ne_true)] at h
      simp only at h
      rw [show foldDepE env
            ({ fm with is_handling_dependencies := true } : FileModule).path
            ({ fm with is_handling_dependencies := true } : FileModule).externalDict
            ⟨[], 0, [], []⟩
          = Except.ok acc from hfold] at h
      cases h
    | error e2 =>
      have hres : handleDependenciesE env fm
          = ({ fm with is_handling_dependencies := true }, Except.error e2) := by
        rw [handleDependenciesE]
        rw [if_neg (by rw [hg2]; exact Bool.false_ne_true)]
        simp only
        rw [show foldDepE env
              ({ fm with is_handling_dependencies := true } : FileModule).path
              ({ fm with is_handling_dependencies := true } : FileModule).externalDict
              ⟨[], 0, [], []⟩
            = Except.error e2 from hfold]
      rw [hres]
      refine ⟨rfl, rfl, ?_, ?_⟩
      · intro env2
        rw [handleDependenciesE]
        rw [if_pos rfl]
      · intro env3
        rw [handleDependencies]
        rw [if_pos rfl]

/-- Witness for C10: the raising pass leaves the guard set and a later call
is a no-op returning 0. -/
theorem handleDependenciesE_guard_stuck_witness :
    (handleDependenciesE envC10 fmC10).1.is_handling_dependencies = true
    ∧ handleDependencies envC4 (handleDependenciesE envC10 fmC10).1
        = ⟨(handleDependenciesE envC10 fmC10).1, 0, [], []⟩ :=
  ⟨(handleDependenciesE_guard_stuck envC10 fmC10 "boom" rfl).1,
   (handleDependenciesE_guard_stuck envC10 fmC10 "boom" rfl).2.2.2 envC4⟩
